import Mathlib

/-!
Shallow embedding of the asynchronous chat relay subsystem of this
repository: the relay server (`broadcast`, `handle_client` and the shared
`connected_clients` registry from `Final_Project/test_relay_server.py`) and
the client connection engine (`connect_disconnect`,
`client_connection_loop`, `handle_received_data_async`,
`translate_message_if_needed` from `Final_Project/chat_client_v5.py`).

Modelling conventions:
* A `StreamWriter` is identified by a natural number; the Python dict
  `connected_clients : {writer: {"peername": ..., "username": ...}}` becomes
  an insertion-ordered association list.
* Every lock-guarded critical section of the Python code is one atomic step
  of the model; the asyncio lock serialises them, so interleavings inside a
  critical section do not exist in the model, exactly as in the code.
* The bytes written by a network write are recorded in a trace; whether a
  given `write/drain` pair raises is decided by an oracle
  `net : Nat → WriteOutcome` supplied per broadcast call.
* A coroutine's `reader.readline()` results are a script `List ReadEv`:
  a decoded line, EOF (`b""`), a `ConnectionResetError`, or a cooperative
  cancellation delivered at that suspension point.  An exhausted script is
  read as EOF (the connection eventually closes).
* An exception escaping a coroutine to its caller is modelled by the
  `Outcome` field of the result: `.cancelled` means `CancelledError`
  propagated; `.normal` means the coroutine returned (all other exceptions
  are caught inside the Python functions modelled here).
-/

/-- The per-connection info record stored in `connected_clients`:
`{"peername": peername, "username": username}`. -/
structure ClientInfo where
  peerHost : String
  peerPort : Nat
  username : String
deriving DecidableEq, Repr

/-- The global `connected_clients` dict: writer id ↦ info, in insertion
order, as a Python dict preserves. -/
abbrev Registry := List (Nat × ClientInfo)

/-- Python dict assignment `connected_clients[w] = v`: replace in place if
the key is present, else append. -/
def dinsert (w : Nat) (v : ClientInfo) : Registry → Registry
  | [] => [(w, v)]
  | (k, u) :: t => if k = w then (k, v) :: t else (k, u) :: dinsert w v t

/-- Python `connected_clients.get(w)`. -/
def dlookup (w : Nat) : Registry → Option ClientInfo
  | [] => none
  | (k, u) :: t => if k = w then some u else dlookup w t

/-- Python `del connected_clients[w]` (keys are unique in a dict, so
filtering every entry with key `w` agrees with deleting the one entry). -/
def derase (w : Nat) (r : Registry) : Registry :=
  r.filter (fun p => p.1 ≠ w)

/-- Python `list(connected_clients.keys())`. -/
def dkeys (r : Registry) : List Nat :=
  r.map (·.1)

/-- The registered display names, in insertion order
(`c.get("username") for c in connected_clients.values()`). -/
def dnames (r : Registry) : List String :=
  r.map (·.2.username)

/-- The duplicate test run under the lock in `handle_client`:
`any(c.get("username") == username for c in connected_clients.values())`. -/
def nameTaken (u : String) (r : Registry) : Bool :=
  r.any (fun p => p.2.username = u)

/-- Python `str.strip()` (whitespace at both ends), written on the char
list so that it evaluates inside the kernel. -/
def pystrip (s : String) : String :=
  ⟨((s.data.dropWhile Char.isWhitespace).reverse.dropWhile Char.isWhitespace).reverse⟩

/-- Python `str.lower()`. -/
def pylower (s : String) : String :=
  ⟨s.data.map Char.toLower⟩

/-- Python `s.startswith(pre)`. -/
def pystarts (s pre : String) : Bool :=
  pre.data.isPrefixOf s.data

/-- Result of one `writer.write(...)` / `await writer.drain()` pair on a
broadcast target: success, one of the transport errors the code catches
(`ConnectionResetError, BrokenPipeError, OSError`), or any other
exception (caught by the second `except Exception` clause). -/
inductive WriteOutcome where
  | ok
  | transportErr
  | otherErr
deriving DecidableEq, Repr

/-- Trace of one `broadcast` call: the message, the excluded sender, the
`(target, bytes)` deliveries in the order performed, and the targets
removed from the registry because their write raised a transport error. -/
structure BCall where
  msg : String
  sender : Option Nat
  deliveries : List (Nat × String)
  removed : List Nat
deriving DecidableEq, Repr

/-- The `for writer in all_writers` loop body of `broadcast`: iterate over
the snapshot, skip the sender, write `message + "\n"`; a transport error
closes the target and deletes it from the live registry (guarded by
`if writer in connected_clients`), any other error is only logged.
Returns the final registry, the deliveries and the removed targets. -/
def broadcastGo (encoded : String) (sender : Option Nat) (net : Nat → WriteOutcome) :
    List Nat → Registry → Registry × List (Nat × String) × List Nat
  | [], reg => (reg, [], [])
  | w :: ws, reg =>
    if some w = sender then
      broadcastGo encoded sender net ws reg
    else
      match net w with
      | .ok =>
        let r := broadcastGo encoded sender net ws reg
        (r.1, (w, encoded) :: r.2.1, r.2.2)
      | .transportErr =>
        let r := broadcastGo encoded sender net ws (derase w reg)
        (r.1, r.2.1, w :: r.2.2)
      | .otherErr =>
        broadcastGo encoded sender net ws reg

/-- Model of `async def broadcast(message, sender_writer)`: under `clients_lock`,
snapshot the writers, then fan `message.encode() + b'\n'` out to every
target except the sender.  The whole call is one critical section. -/
def broadcast (message : String) (sender : Option Nat) (reg : Registry)
    (net : Nat → WriteOutcome) : Registry × BCall :=
  let encoded := message ++ "\n"
  let r := broadcastGo encoded sender net (dkeys reg) reg
  (r.1, ⟨message, sender, r.2.1, r.2.2⟩)

-- Basic registry lemmas

theorem dlookup_eq_none_of_not_mem {w : Nat} {r : Registry}
    (h : w ∉ dkeys r) : dlookup w r = none := by
  induction r with
  | nil => rfl
  | cons p t ih =>
    simp [dkeys] at h
    simp [dlookup, h.1, Ne.symm h.1]
    exact ih (by simp [dkeys, h.2])

theorem mem_dkeys_derase {v w : Nat} {r : Registry} :
    v ∈ dkeys (derase w r) ↔ v ∈ dkeys r ∧ v ≠ w := by
  simp only [derase, dkeys, List.mem_map, List.mem_filter, ne_eq,
    decide_not, Bool.not_eq_true', decide_eq_false_iff_not]
  constructor
  · rintro ⟨p, ⟨hp, hpw⟩, rfl⟩
    exact ⟨⟨p, hp, rfl⟩, hpw⟩
  · rintro ⟨⟨p, hp, rfl⟩, hvw⟩
    exact ⟨p, ⟨hp, hvw⟩, rfl⟩

/-- The deliveries of a broadcast depend only on the snapshot: every
non-sender target whose write succeeds receives `message + "\n"`, in
snapshot order. -/
theorem broadcastGo_deliveries (encoded : String) (sender : Option Nat)
    (net : Nat → WriteOutcome) (ws : List Nat) (reg : Registry) :
    (broadcastGo encoded sender net ws reg).2.1 =
      (ws.filter (fun w => some w ≠ sender ∧ net w = .ok)).map
        (fun w => (w, encoded)) := by
  induction ws generalizing reg with
  | nil => rfl
  | cons w ws ih =>
    by_cases hs : some w = sender
    · simp [broadcastGo, hs, ih]
    · cases hnet : net w with
      | ok => simp [broadcastGo, hs, hnet, ih]
      | transportErr => simp [broadcastGo, hs, hnet, ih]
      | otherErr => simp [broadcastGo, hs, hnet, ih]

/-- The targets removed by a broadcast are exactly the non-sender snapshot
targets whose write raised a transport error, in snapshot order. -/
theorem broadcastGo_removed (encoded : String) (sender : Option Nat)
    (net : Nat → WriteOutcome) (ws : List Nat) (reg : Registry) :
    (broadcastGo encoded sender net ws reg).2.2 =
      ws.filter (fun w => some w ≠ sender ∧ net w = .transportErr) := by
  induction ws generalizing reg with
  | nil => rfl
  | cons w ws ih =>
    by_cases hs : some w = sender
    · simp [broadcastGo, hs, ih]
    · cases hnet : net w with
      | ok => simp [broadcastGo, hs, hnet, ih]
      | transportErr => simp [broadcastGo, hs, hnet, ih]
      | otherErr => simp [broadcastGo, hs, hnet, ih]

/-- Dropping the head of the snapshot does not change the removal
predicate when the head is not a failing non-sender target. -/
theorem filter_pred_cons (sender : Option Nat) (net : Nat → WriteOutcome)
    (w : Nat) (ws : List Nat) (reg : Registry)
    (hw : ¬ (some w ≠ sender ∧ net w = .transportErr)) :
    (reg.filter (fun p => ¬ (p.1 ∈ ws ∧ some p.1 ≠ sender ∧ net p.1 = .transportErr))) =
      reg.filter (fun p => ¬ (p.1 ∈ w :: ws ∧ some p.1 ≠ sender ∧ net p.1 = .transportErr)) := by
  apply List.filter_congr
  intro p _
  simp only [decide_eq_decide]
  constructor
  · rintro h ⟨hmem, hps, hpt⟩
    rcases List.mem_cons.mp hmem with hpw | hmem'
    · exact hw ⟨hpw ▸ hps, hpw ▸ hpt⟩
    · exact h ⟨hmem', hps, hpt⟩
  · rintro h ⟨hmem, hps, hpt⟩
    exact h ⟨List.mem_cons_of_mem _ hmem, hps, hpt⟩

/-- The registry after the broadcast loop: exactly the entries whose key is
not a removed target. -/
theorem broadcastGo_reg (encoded : String) (sender : Option Nat)
    (net : Nat → WriteOutcome) (ws : List Nat) (reg : Registry) :
    (broadcastGo encoded sender net ws reg).1 =
      reg.filter (fun p => ¬ (p.1 ∈ ws ∧ some p.1 ≠ sender ∧ net p.1 = .transportErr)) := by
  induction ws generalizing reg with
  | nil => simp [broadcastGo]
  | cons w ws ih =>
    by_cases hs : some w = sender
    · rw [broadcastGo, if_pos hs, ih]
      exact filter_pred_cons sender net w ws reg (fun hc => hc.1 hs)
    · cases hnet : net w with
      | ok =>
        rw [broadcastGo, if_neg hs, hnet]
        show (broadcastGo encoded sender net ws reg).1 = _
        rw [ih]
        exact filter_pred_cons sender net w ws reg (fun hc => by
          rw [hnet] at hc; exact WriteOutcome.noConfusion hc.2)
      | transportErr =>
        rw [broadcastGo, if_neg hs, hnet]
        show (broadcastGo encoded sender net ws (derase w reg)).1 = _
        rw [ih, derase, List.filter_filter]
        apply List.filter_congr
        intro p _
        by_cases hpw : p.1 = w
        · simp [hpw, hs, hnet, List.mem_cons]
        · simp [hpw, List.mem_cons]
      | otherErr =>
        rw [broadcastGo, if_neg hs, hnet, ih]
        exact filter_pred_cons sender net w ws reg (fun hc => by
          rw [hnet] at hc; exact WriteOutcome.noConfusion hc.2)

/-- One result of `await reader.readline()` at a suspension point of the
server handler (or the client receiver): a decoded line (before
`.strip()`), EOF (`b""`), a `ConnectionResetError` raised at the read, or
a cooperative cancellation delivered there. -/
inductive ReadEv where
  | line (s : String)
  | eofEv
  | reset
  | cancel
deriving DecidableEq, Repr

/-- How a coroutine finishes from its caller's point of view: a normal
return, or a propagated `asyncio.CancelledError`. -/
inductive Outcome where
  | normal
  | cancelled
deriving DecidableEq, Repr

/-- Why the `while True` receive loop of `handle_client` ended. -/
inductive LoopExit where
  | eofExit
  | quitExit
  | resetExit
  | cancelExit
deriving DecidableEq, Repr

/-- State threaded through the handler's receive loop: the live registry,
the broadcast calls made so far and the index of the next broadcast call
(used to select its network oracle). -/
structure LoopRes where
  reg : Registry
  calls : List BCall
  exitKind : LoopExit
  remaining : List ReadEv
  nextCall : Nat
deriving DecidableEq, Repr

/-- Step 4 of `handle_client`, the `while True:` receive loop: EOF breaks;
`data.decode().strip()`; a line that lowercases to `quit` breaks without
reading further; an empty line is ignored (`continue`); anything else is
broadcast as `[username]: message` excluding the sender.  A
`ConnectionResetError` or a cancellation at the read exits to the
corresponding `except` clause. -/
def chatLoop (w : Nat) (username : String) (net : Nat → Nat → WriteOutcome) :
    List ReadEv → Registry → Nat → LoopRes
  | [], reg, k => ⟨reg, [], .eofExit, [], k⟩
  | .eofEv :: rest, reg, k => ⟨reg, [], .eofExit, rest, k⟩
  | .reset :: rest, reg, k => ⟨reg, [], .resetExit, rest, k⟩
  | .cancel :: rest, reg, k => ⟨reg, [], .cancelExit, rest, k⟩
  | .line s :: rest, reg, k =>
    let message := pystrip s
    if pylower message = "quit" then ⟨reg, [], .quitExit, rest, k⟩
    else if message = "" then chatLoop w username net rest reg k
    else
      let b := broadcast ("[" ++ username ++ "]: " ++ message) (some w) reg (net k)
      let r := chatLoop w username net rest b.1 (k + 1)
      ⟨r.reg, b.2 :: r.calls, r.exitKind, r.remaining, r.nextCall⟩

/-- Trace of the `finally` block of `handle_client`: the registry after
cleanup, the final value of `departing_username`, and the departure
broadcast if one was made. -/
structure CleanupRes where
  reg : Registry
  departing : String
  call : Option BCall
deriving DecidableEq, Repr

/-- The `finally` block of `handle_client`: under the lock, if the writer
is still registered capture its username and delete it; then, outside the
lock, broadcast the departure notice to everyone (`sender = None`) only if
`departing_username` moved off the default `"Someone"`.  The writer is
closed afterwards on every path (close errors are swallowed). -/
def finallyBlock (w : Nat) (reg : Registry) (net : Nat → WriteOutcome) : CleanupRes :=
  let looked := dlookup w reg
  let departing := match looked with
    | some info => info.username
    | none => "Someone"
  let reg1 := match looked with
    | some _ => derase w reg
    | none => reg
  if departing = "Someone" then ⟨reg1, departing, none⟩
  else
    let b := broadcast ("[Server] '" ++ departing ++ "' has left the chat.") none reg1 net
    ⟨b.1, departing, some b.2⟩

/-- Which call site of `handle_client` invoked `broadcast`. -/
inductive BSite where
  | join
  | chat
  | departure
deriving DecidableEq, Repr

/-- Full trace of one `handle_client` run. -/
structure HandlerRes where
  /-- final `connected_clients` -/
  reg : Registry
  /-- decoded lines written to this client's own writer, in order -/
  ownWrites : List String
  /-- every broadcast call made on behalf of this handler, tagged by site -/
  calls : List (BSite × BCall)
  /-- whether step 2 inserted this connection into the registry -/
  registered : Bool
  /-- final value of `departing_username` in the `finally` block -/
  departing : String
  /-- the writer is closed by the `finally` block -/
  closedOwn : Bool
  /-- unconsumed read events -/
  remaining : List ReadEv
  /-- normal return vs. propagated `CancelledError` -/
  outcome : Outcome
deriving DecidableEq, Repr

/-- The exact server → client literals. -/
def welcomePrompt : String := "Welcome! Please enter your username:\n"

def readyAck : String := "You are now connected. Type 'quit' to exit.\n"

def rejectionText (username : String) : String :=
  "Username '" ++ username ++ "' already taken. Please reconnect with a different name.\n"

def assignedNotice (username : String) : String :=
  "No username provided, assigned: " ++ username ++ "\n"

def joinNotice (username : String) : String :=
  "[Server] '" ++ username ++ "' has joined the chat!"

def departureNotice (username : String) : String :=
  "[Server] '" ++ username ++ "' has left the chat."

/-- Model of `async def handle_client(reader, writer)` for one connection `w` from
peer `(peerHost, peerPort)` whose reads are scripted by `events`; `net i`
is the network oracle of the `i`-th broadcast call this handler makes.

1. send the welcome prompt and read the username line (EOF → plain
   `return`; reset/cancel → the matching `except` clause, then `finally`);
2. `strip()` the name, substituting `User_<port>` (with a notice) when
   blank; under the lock, reject an already-taken name with the exact
   rejection text and `return`, else insert into `connected_clients`;
3. broadcast the join notice excluding self and send the ready ack;
4. run the receive loop (`chatLoop`);
5. the `finally` block (`finallyBlock`) runs on every exit path, then the
   writer is closed; a `CancelledError` is re-raised, every other
   exception is swallowed by its `except` clause. -/
def handle_client (reg0 : Registry) (w : Nat) (peerHost : String) (peerPort : Nat)
    (events : List ReadEv) (net : Nat → Nat → WriteOutcome) : HandlerRes :=
  match events with
  | [] =>
    let c := finallyBlock w reg0 (net 0)
    ⟨c.reg, [welcomePrompt], (c.call.map (fun b => (BSite.departure, b))).toList,
      false, c.departing, true, [], .normal⟩
  | .eofEv :: rest =>
    let c := finallyBlock w reg0 (net 0)
    ⟨c.reg, [welcomePrompt], (c.call.map (fun b => (BSite.departure, b))).toList,
      false, c.departing, true, rest, .normal⟩
  | .reset :: rest =>
    let c := finallyBlock w reg0 (net 0)
    ⟨c.reg, [welcomePrompt], (c.call.map (fun b => (BSite.departure, b))).toList,
      false, c.departing, true, rest, .normal⟩
  | .cancel :: rest =>
    let c := finallyBlock w reg0 (net 0)
    ⟨c.reg, [welcomePrompt], (c.call.map (fun b => (BSite.departure, b))).toList,
      false, c.departing, true, rest, .cancelled⟩
  | .line s :: rest =>
    let stripped := pystrip s
    let username := if stripped = "" then "User_" ++ toString peerPort else stripped
    let nameWrites :=
      if stripped = "" then [welcomePrompt, assignedNotice username] else [welcomePrompt]
    if nameTaken username reg0 then
      let c := finallyBlock w reg0 (net 0)
      ⟨c.reg, nameWrites ++ [rejectionText username],
        (c.call.map (fun b => (BSite.departure, b))).toList,
        false, c.departing, true, rest, .normal⟩
    else
      let reg1 := dinsert w ⟨peerHost, peerPort, username⟩ reg0
      let bJoin := broadcast (joinNotice username) (some w) reg1 (net 0)
      let l := chatLoop w username net rest bJoin.1 1
      let c := finallyBlock w l.reg (net l.nextCall)
      ⟨c.reg, nameWrites ++ [readyAck],
        (BSite.join, bJoin.2) :: l.calls.map (fun b => (BSite.chat, b)) ++
          (c.call.map (fun b => (BSite.departure, b))).toList,
        true, c.departing, true, l.remaining,
        if l.exitKind = .cancelExit then .cancelled else .normal⟩

/-- The atomic lock-guarded registry mutations performed anywhere in the
server: the check-and-insert of `handle_client` step 2, the guarded
`del` in the `finally` block of `handle_client`, and the guarded `del` in
the error branch of `broadcast`.  These are the only statements in
`test_relay_server.py` that mutate `connected_clients`, and each runs
while `clients_lock` is held. -/
inductive RegOp where
  | reg (w : Nat) (info : ClientInfo)
  | rmFin (w : Nat)
  | rmBcast (w : Nat)
deriving DecidableEq, Repr

/-- Effect actually performed by a registry operation. -/
inductive RegEff where
  | ins (w : Nat)
  | rm (w : Nat)
deriving DecidableEq, Repr

/-- Execute one atomic registry mutation exactly as the code does:
registration inserts only when the duplicate check fails, and both
removal sites delete only when the writer is still a key. -/
def applyOp (r : Registry) : RegOp → Registry × List RegEff
  | .reg w info =>
    if nameTaken info.username r then (r, []) else (dinsert w info r, [.ins w])
  | .rmFin w =>
    if w ∈ dkeys r then (derase w r, [.rm w]) else (r, [])
  | .rmBcast w =>
    if w ∈ dkeys r then (derase w r, [.rm w]) else (r, [])

/-- Run a sequence of atomic registry mutations from a starting registry,
collecting the effects. -/
def runOps : Registry → List RegOp → Registry × List RegEff
  | r, [] => (r, [])
  | r, op :: ops =>
    let s := applyOp r op
    let t := runOps s.1 ops
    (t.1, s.2 ++ t.2)

/-- Is this operation the registration of writer `w`? -/
def isRegOf (w : Nat) : RegOp → Bool
  | .reg v _ => v = w
  | _ => false

-- Lemmas about the atomic registry mutations

theorem nameTaken_iff {u : String} {r : Registry} :
    nameTaken u r = true ↔ u ∈ dnames r := by
  simp only [nameTaken, dnames, List.any_eq_true, List.mem_map,
    decide_eq_true_eq]

theorem dnames_cons (p : Nat × ClientInfo) (t : Registry) :
    dnames (p :: t) = p.2.username :: dnames t := rfl

theorem dnames_dinsert_subset {w : Nat} {info : ClientInfo} {r : Registry} :
    ∀ u ∈ dnames (dinsert w info r), u = info.username ∨ u ∈ dnames r := by
  induction r with
  | nil =>
    intro u hu
    simp [dinsert, dnames] at hu
    exact Or.inl hu
  | cons p t ih =>
    intro u hu
    by_cases hp : p.1 = w
    · rw [show dinsert w info (p :: t) = (p.1, info) :: t by simp [dinsert, hp]] at hu
      rw [dnames_cons] at hu
      rcases List.mem_cons.mp hu with hu | hu
      · exact Or.inl hu
      · exact Or.inr (List.mem_cons_of_mem _ hu)
    · rw [show dinsert w info (p :: t) = p :: dinsert w info t by simp [dinsert, hp]] at hu
      rw [dnames_cons] at hu
      rcases List.mem_cons.mp hu with hu | hu
      · exact Or.inr (by rw [dnames_cons, hu]; exact List.mem_cons_self _ _)
      · rcases ih u hu with h | h
        · exact Or.inl h
        · exact Or.inr (by rw [dnames_cons]; exact List.mem_cons_of_mem _ h)

theorem dnames_nodup_dinsert {w : Nat} {info : ClientInfo} {r : Registry}
    (hn : nameTaken info.username r = false) (hd : (dnames r).Nodup) :
    (dnames (dinsert w info r)).Nodup := by
  induction r with
  | nil => simp [dinsert, dnames]
  | cons p t ih =>
    have hnmem : info.username ∉ dnames (p :: t) := fun hmem =>
      by rw [← nameTaken_iff] at hmem; rw [hn] at hmem; cases hmem
    have hnt : nameTaken info.username t = false := by
      rcases Bool.eq_false_or_eq_true (nameTaken info.username t) with h | h
      · exact absurd (List.mem_cons_of_mem _ (nameTaken_iff.mp h)) hnmem
      · exact h
    rw [dnames_cons] at hd
    have hd1 := List.nodup_cons.mp hd
    by_cases hp : p.1 = w
    · rw [show dinsert w info (p :: t) = (p.1, info) :: t by simp [dinsert, hp]]
      rw [dnames_cons]
      refine List.nodup_cons.mpr ⟨?_, hd1.2⟩
      intro hmem
      exact hnmem (List.mem_cons_of_mem _ hmem)
    · rw [show dinsert w info (p :: t) = p :: dinsert w info t by simp [dinsert, hp]]
      rw [dnames_cons]
      refine List.nodup_cons.mpr ⟨?_, ih hnt hd1.2⟩
      intro hmem
      rcases dnames_dinsert_subset _ hmem with h | h
      · exact hnmem (by rw [dnames_cons, h]; exact List.mem_cons_self _ _)
      · exact hd1.1 h

theorem dnames_derase_sublist (w : Nat) (r : Registry) :
    (dnames (derase w r)).Sublist (dnames r) :=
  List.Sublist.map _ (List.filter_sublist r)

theorem dkeys_cons (p : Nat × ClientInfo) (t : Registry) :
    dkeys (p :: t) = p.1 :: dkeys t := rfl

theorem mem_dkeys_dinsert {v w : Nat} {info : ClientInfo} {r : Registry} :
    v ∈ dkeys (dinsert w info r) ↔ v ∈ dkeys r ∨ v = w := by
  induction r with
  | nil => simp [dinsert, dkeys]
  | cons p t ih =>
    by_cases hp : p.1 = w
    · rw [show dinsert w info (p :: t) = (p.1, info) :: t by simp [dinsert, hp]]
      rw [show dkeys ((p.1, info) :: t) = p.1 :: dkeys t from rfl, dkeys_cons]
      constructor
      · exact Or.inl
      · rintro (h | h)
        · exact h
        · rw [h, ← hp]
          exact List.mem_cons_self _ _
    · rw [show dinsert w info (p :: t) = p :: dinsert w info t by simp [dinsert, hp]]
      rw [dkeys_cons, dkeys_cons]
      constructor
      · intro h
        rcases List.mem_cons.mp h with h | h
        · exact Or.inl (List.mem_cons.mpr (Or.inl h))
        · rcases ih.mp h with h1 | h1
          · exact Or.inl (List.mem_cons.mpr (Or.inr h1))
          · exact Or.inr h1
      · rintro (h | h)
        · rcases List.mem_cons.mp h with h1 | h1
          · exact List.mem_cons.mpr (Or.inl h1)
          · exact List.mem_cons.mpr (Or.inr (ih.mpr (Or.inl h1)))
        · exact List.mem_cons.mpr (Or.inr (ih.mpr (Or.inr h)))

/-- Every atomic registry mutation preserves uniqueness of display names. -/
theorem applyOp_names_nodup {r : Registry} (op : RegOp)
    (hd : (dnames r).Nodup) : (dnames (applyOp r op).1).Nodup := by
  cases op with
  | reg w info =>
    rcases Bool.eq_false_or_eq_true (nameTaken info.username r) with h | h
    · rw [applyOp, h]
      simpa using hd
    · rw [applyOp, h]
      simp only [Bool.false_eq_true, if_false]
      exact dnames_nodup_dinsert h hd
  | rmFin w =>
    rw [applyOp]
    by_cases h : w ∈ dkeys r
    · rw [if_pos h]
      exact hd.sublist (dnames_derase_sublist w r)
    · rw [if_neg h]
      exact hd
  | rmBcast w =>
    rw [applyOp]
    by_cases h : w ∈ dkeys r
    · rw [if_pos h]
      exact hd.sublist (dnames_derase_sublist w r)
    · rw [if_neg h]
      exact hd

theorem runOps_names_nodup (ops : List RegOp) (r : Registry)
    (hd : (dnames r).Nodup) : (dnames (runOps r ops).1).Nodup := by
  induction ops generalizing r with
  | nil => exact hd
  | cons op ops ih => exact ih _ (applyOp_names_nodup op hd)

/-- How many times a writer is inserted in an effect trace. -/
def insCount (w : Nat) (effs : List RegEff) : Nat :=
  effs.countP (· = .ins w)

/-- How many times a writer is removed in an effect trace. -/
def rmCount (w : Nat) (effs : List RegEff) : Nat :=
  effs.countP (· = .rm w)

/-- How many registration attempts for writer `w` an operation list holds. -/
def regCount (w : Nat) (ops : List RegOp) : Nat :=
  ops.countP (isRegOf w)

/-- Membership indicator for the bookkeeping lemmas. -/
def memb (w : Nat) (r : Registry) : Nat :=
  if w ∈ dkeys r then 1 else 0

/-- A single atomic mutation emits at most one insertion of `w`, and only
when it is the registration of `w`. -/
theorem applyOp_ins_count (r : Registry) (op : RegOp) (w : Nat) :
    List.countP (fun e => decide (e = RegEff.ins w)) (applyOp r op).2 ≤
      (if isRegOf w op = true then 1 else 0) := by
  cases op with
  | reg v info =>
    rw [applyOp]
    split
    · simp
    · by_cases hv : v = w
      · subst hv
        simp [List.countP_cons, isRegOf]
      · simp [List.countP_cons, isRegOf, hv]
  | rmFin v =>
    rw [applyOp]
    split <;> simp [List.countP_cons]
  | rmBcast v =>
    rw [applyOp]
    split <;> simp [List.countP_cons]

theorem insCount_runOps_le (ops : List RegOp) (w : Nat) :
    ∀ r : Registry, insCount w (runOps r ops).2 ≤ regCount w ops := by
  induction ops with
  | nil => intro r; simp [runOps, insCount]
  | cons op ops ih =>
    intro r
    rw [runOps]
    show insCount w ((applyOp r op).2 ++ (runOps (applyOp r op).1 ops).2) ≤ _
    rw [insCount, List.countP_append]
    have hrec := ih (applyOp r op).1
    rw [insCount] at hrec
    have hco : regCount w (op :: ops) =
        (if isRegOf w op = true then 1 else 0) + regCount w ops := by
      rw [regCount, List.countP_cons, regCount]
      by_cases h : isRegOf w op = true <;> simp [h, Nat.add_comm]
    rw [hco]
    exact Nat.add_le_add (applyOp_ins_count r op w) hrec

theorem memb_dinsert_le (v w : Nat) (info : ClientInfo) (r : Registry) :
    memb w (dinsert v info r) ≤ memb w r + (if v = w then 1 else 0) := by
  by_cases hv : v = w
  · subst hv
    rw [memb]
    split <;> simp [memb]
  · have : w ∈ dkeys (dinsert v info r) ↔ w ∈ dkeys r := by
      rw [mem_dkeys_dinsert]
      constructor
      · rintro (h | h)
        · exact h
        · exact absurd h.symm hv
      · exact Or.inl
    rw [memb, memb]
    by_cases h : w ∈ dkeys r
    · simp [h, this.mpr h]
    · simp [hv, h, this, fun hc => h (this.mp hc)]

theorem rmCount_runOps_le (ops : List RegOp) (w : Nat) :
    ∀ r : Registry, rmCount w (runOps r ops).2 ≤ memb w r + regCount w ops := by
  induction ops with
  | nil => intro r; simp [runOps, rmCount]
  | cons op ops ih =>
    intro r
    rw [runOps]
    show rmCount w ((applyOp r op).2 ++ (runOps (applyOp r op).1 ops).2) ≤ _
    rw [rmCount, List.countP_append]
    have hrec := ih (applyOp r op).1
    rw [rmCount] at hrec
    have hco : regCount w (op :: ops) =
        (if isRegOf w op = true then 1 else 0) + regCount w ops := by
      rw [regCount, List.countP_cons, regCount]
      by_cases h : isRegOf w op = true <;> simp [h, Nat.add_comm]
    rw [hco]
    cases op with
    | reg v info =>
      have heff : List.countP (fun e => decide (e = RegEff.rm w)) (applyOp r (.reg v info)).2 = 0 := by
        rw [applyOp]
        split <;> simp [List.countP_cons]
      rw [heff, Nat.zero_add]
      refine le_trans hrec ?_
      have hreg1 : (applyOp r (.reg v info)).1 =
          if nameTaken info.username r = true then r else dinsert v info r := by
        rw [applyOp]
        split <;> simp_all
      rw [hreg1]
      split
      · calc memb w r + regCount w ops
            ≤ (memb w r + (if isRegOf w (.reg v info) = true then 1 else 0)) + regCount w ops := by
              refine Nat.add_le_add_right (Nat.le_add_right _ _) _
          _ = memb w r + ((if isRegOf w (.reg v info) = true then 1 else 0) + regCount w ops) := by
              rw [Nat.add_assoc]
      · calc memb w (dinsert v info r) + regCount w ops
            ≤ (memb w r + (if v = w then 1 else 0)) + regCount w ops :=
              Nat.add_le_add_right (memb_dinsert_le v w info r) _
          _ = memb w r + ((if v = w then 1 else 0) + regCount w ops) := by rw [Nat.add_assoc]
          _ = memb w r + ((if isRegOf w (.reg v info) = true then 1 else 0) + regCount w ops) := by
              simp [isRegOf]
    | rmFin v =>
      have hind : (if isRegOf w (RegOp.rmFin v) = true then 1 else 0) = 0 := by
        simp [isRegOf]
      rw [hind, Nat.zero_add]
      by_cases hm : v ∈ dkeys r
      · have heq : (applyOp r (.rmFin v)) = (derase v r, [RegEff.rm v]) := by
          rw [applyOp, if_pos hm]
        rw [heq] at hrec ⊢
        by_cases hv : v = w
        · subst hv
          have h0 : memb v (derase v r) = 0 := by
            rw [memb, if_neg]
            intro hc
            exact (mem_dkeys_derase.mp hc).2 rfl
          rw [h0, Nat.zero_add] at hrec
          have h1 : memb v r = 1 := by rw [memb, if_pos hm]
          have hcnt : List.countP (fun e => decide (e = RegEff.rm v)) [RegEff.rm v] = 1 := by
            simp
          rw [hcnt, h1]
          exact Nat.add_le_add_left hrec 1
        · have hsame : memb w (derase v r) = memb w r := by
            rw [memb, memb]
            by_cases h : w ∈ dkeys r
            · rw [if_pos h, if_pos (mem_dkeys_derase.mpr ⟨h, fun hc => hv hc.symm⟩)]
            · rw [if_neg h, if_neg (fun hc => h (mem_dkeys_derase.mp hc).1)]
          rw [hsame] at hrec
          have hcnt : List.countP (fun e => decide (e = RegEff.rm w)) [RegEff.rm v] = 0 := by
            simp [hv]
          rw [hcnt, Nat.zero_add]
          exact hrec
      · have heq : (applyOp r (.rmFin v)) = (r, []) := by
          rw [applyOp, if_neg hm]
        rw [heq] at hrec ⊢
        simp only [List.countP_nil, Nat.zero_add]
        exact hrec
    | rmBcast v =>
      have hind : (if isRegOf w (RegOp.rmBcast v) = true then 1 else 0) = 0 := by
        simp [isRegOf]
      rw [hind, Nat.zero_add]
      by_cases hm : v ∈ dkeys r
      · have heq : (applyOp r (.rmBcast v)) = (derase v r, [RegEff.rm v]) := by
          rw [applyOp, if_pos hm]
        rw [heq] at hrec ⊢
        by_cases hv : v = w
        · subst hv
          have h0 : memb v (derase v r) = 0 := by
            rw [memb, if_neg]
            intro hc
            exact (mem_dkeys_derase.mp hc).2 rfl
          rw [h0, Nat.zero_add] at hrec
          have h1 : memb v r = 1 := by rw [memb, if_pos hm]
          have hcnt : List.countP (fun e => decide (e = RegEff.rm v)) [RegEff.rm v] = 1 := by
            simp
          rw [hcnt, h1]
          exact Nat.add_le_add_left hrec 1
        · have hsame : memb w (derase v r) = memb w r := by
            rw [memb, memb]
            by_cases h : w ∈ dkeys r
            · rw [if_pos h, if_pos (mem_dkeys_derase.mpr ⟨h, fun hc => hv hc.symm⟩)]
            · rw [if_neg h, if_neg (fun hc => h (mem_dkeys_derase.mp hc).1)]
          rw [hsame] at hrec
          have hcnt : List.countP (fun e => decide (e = RegEff.rm w)) [RegEff.rm v] = 0 := by
            simp [hv]
          rw [hcnt, Nat.zero_add]
          exact hrec
      · have heq : (applyOp r (.rmBcast v)) = (r, []) := by
          rw [applyOp, if_neg hm]
        rw [heq] at hrec ⊢
        simp only [List.countP_nil, Nat.zero_add]
        exact hrec

/-- Digit-sequence parser of Python `int(str)`: digits with single
underscores allowed between digits. -/
def pyDigits : Nat → List Char → Option Nat
  | acc, [] => some acc
  | acc, '_' :: c :: cs =>
    if c.isDigit then pyDigits (acc * 10 + (c.toNat - 48)) cs else none
  | _, ['_'] => none
  | acc, c :: cs =>
    if c.isDigit then pyDigits (acc * 10 + (c.toNat - 48)) cs else none

/-- Python `int(s)` on an already-stripped string: optional sign followed
by a digit sequence; raises `ValueError` (`none`) otherwise. -/
def pyInt (s : String) : Option Int :=
  match s.data with
  | '+' :: c :: cs =>
    if c.isDigit then (pyDigits (c.toNat - 48) cs).map Int.ofNat else none
  | '-' :: c :: cs =>
    if c.isDigit then (pyDigits (c.toNat - 48) cs).map (fun n => -(n : Int)) else none
  | c :: cs =>
    if c.isDigit then (pyDigits (c.toNat - 48) cs).map Int.ofNat else none
  | [] => none

/-- The fields of `ChatClientGUI` that `connect_disconnect` reads or
writes: the two state flags, whether `connect_lock` is currently held,
and the cached display name (`self.username`, overwritten from the entry
before validation).  `loop_running` mirrors whether the background asyncio
loop of a previous connection is still alive; `connect_disconnect` never
reads it for the connect decision. -/
structure ClientState where
  is_connected : Bool
  is_connecting : Bool
  lock_held : Bool
  username : String
  loop_running : Bool
deriving DecidableEq, Repr

/-- The three GUI entry fields read by `connect_disconnect`. -/
structure Entries where
  name : String
  host : String
  port : String
deriving DecidableEq, Repr

/-- Externally visible effects of one `connect_disconnect` call. -/
inductive ClientEv where
  /-- `connect_lock.acquire(blocking=False)` failed: rapid click ignored -/
  | ignoredClick
  | statusMsg (s : String)
  | displayErr (s : String)
  /-- `call_soon_threadsafe(self._schedule_stop)` -/
  | scheduleStop
  /-- `root.after(0, self.update_ui_state)` on the no-loop disconnect path -/
  | uiUpdate
  /-- the background connection thread is started for `host:port` -/
  | startThread (host : String) (port : Int)
deriving DecidableEq, Repr

/-- The exact user-facing validation errors of `connect_disconnect`. -/
def errNoUsername : String := "Please enter a username first."

def errNoHost : String := "Server Host cannot be empty."

def errInvalidPort (portStr : String) : String :=
  "Invalid Port: '" ++ portStr ++ "'."

/-- Model of `ChatClientGUI.connect_disconnect` as a state transformer.  The
non-blocking lock acquire fails when the lock is held (a connect is in
flight) and the call is a no-op.  Otherwise: if connected, start a
disconnect (clear `is_connected`, schedule the stop on the running loop)
and release the lock; else if not already connecting, copy the stripped
entry fields (`self.username` is assigned before any validation), reject
empty name, empty host, or a port that is not an `int` in 1..65535, each
with its own error and status (releasing the lock via `finally`); a valid
triple sets `is_connecting`, keeps the lock held
(`should_release = False`) and starts the background thread. -/
def connect_disconnect (st : ClientState) (e : Entries) : ClientState × List ClientEv :=
  if st.lock_held then (st, [.ignoredClick])
  else if st.is_connected then
    ({ st with is_connected := false },
      if st.loop_running then [.statusMsg "Disconnecting...", .scheduleStop]
      else [.statusMsg "Disconnecting...", .uiUpdate])
  else if ¬ st.is_connecting then
    let name := pystrip e.name
    let host := pystrip e.host
    let portStr := pystrip e.port
    let st1 := { st with username := name }
    if name = "" then
      (st1, [.displayErr errNoUsername, .statusMsg "Username required"])
    else if host = "" then
      (st1, [.displayErr errNoHost, .statusMsg "Host required"])
    else
      match pyInt portStr with
      | none =>
        (st1, [.displayErr (errInvalidPort portStr), .statusMsg "Invalid Port"])
      | some p =>
        if 0 < p ∧ p < 65536 then
          ({ st1 with is_connecting := true, lock_held := true },
            [.statusMsg ("Connecting to " ++ host ++ "..."), .startThread host p])
        else
          (st1, [.displayErr (errInvalidPort portStr), .statusMsg "Invalid Port"])
  else
    (st, [])

/-- Result of the pluggable transform call
(`await self.openai_client.chat.completions.create(...)`): the returned
text, or one of the exception classes the code handles. -/
inductive LLMRes where
  | ok (text : String)
  | authErr
  | apiErr (e : String)
  | exnErr (e : String)
deriving DecidableEq, Repr

/-- Result of `translate_message_if_needed`: the messages shown via
`display_message` during the call, the returned line, and whether
`self.openai_client` is still configured afterwards. -/
structure TransRes where
  displays : List String
  result : String
  configured : Bool
deriving DecidableEq, Repr

/-- The exact error notes of the transform failure handlers. -/
def authErrNote : String := "--- Translation failed: Invalid OpenAI API Key. ---"

def apiErrNote (e : String) : String := "--- Translation error: " ++ e ++ " ---"

def exnErrNote (e : String) : String := "--- Unexpected translation error: " ++ e ++ " ---"

/-- Model of `ChatClientGUI.translate_message_if_needed`: skip when no OpenAI
client is configured or the line is a server notice or the user's own
relay; otherwise call the transform: on success return the stripped
response, on `AuthenticationError` display the error note, drop the
client (re-initialised from the key entry: `keyPresent`) and return the
original message, on `OpenAIError` or any other exception display the
note and return the original message. -/
def translate_message_if_needed (configured : Bool) (keyPresent : Bool)
    (username : String) (message : String) (llm : String → LLMRes) : TransRes :=
  if ¬ configured then ⟨[], message, configured⟩
  else if pystarts message "[Server]" ∨ pystarts message ("[" ++ username ++ "]") then
    ⟨[], message, configured⟩
  else
    match llm message with
    | .ok t => ⟨[], pystrip t, configured⟩
    | .authErr => ⟨[authErrNote], message, keyPresent⟩
    | .apiErr e => ⟨[apiErrNote e], message, configured⟩
    | .exnErr e => ⟨[exnErrNote e], message, configured⟩

/-- Full trace of one `handle_received_data_async` run. -/
structure RecvRes where
  /-- every `display_message` call, in order -/
  displays : List String
  /-- the username auto-reply was scheduled -/
  sentName : Bool
  /-- normal return vs. propagated `CancelledError` -/
  outcome : Outcome
deriving DecidableEq, Repr

/-- The receive loop body of `handle_received_data_async`, threading the
`first_message` flag and the configured state of the OpenAI client. -/
def recvGo (username : String) (keyPresent : Bool) (llm : String → LLMRes) :
    Bool → Bool → List ReadEv → RecvRes
  | _, _, [] => ⟨[], false, .normal⟩
  | _, _, .eofEv :: _ => ⟨["--- Server closed the connection. ---"], false, .normal⟩
  | _, _, .reset :: _ => ⟨["--- Connection to server lost (reset). ---"], false, .normal⟩
  | _, _, .cancel :: _ => ⟨[], false, .normal⟩
  | first, conf, .line s :: rest =>
    let message := pystrip s
    if message = "" then recvGo username keyPresent llm first conf rest
    else if first ∧ pystarts message "Welcome!" then
      let r := recvGo username keyPresent llm false conf rest
      ⟨"Username sent to server." :: r.displays, true, r.outcome⟩
    else
      let t := translate_message_if_needed conf keyPresent username message llm
      let r := recvGo username keyPresent llm false t.configured rest
      ⟨t.displays ++ t.result :: r.displays, r.sentName, r.outcome⟩

/-- Model of `ChatClientGUI.handle_received_data_async`: reads lines until EOF or
an exception; the first non-blank line starting with `Welcome!` triggers
the username auto-reply and is suppressed from the display; every later
line is displayed after the optional transform.  EOF, a reset and any
other receive error are displayed and end the loop; a `CancelledError` is
caught by its `except` clause and the coroutine returns normally. -/
def handle_received_data_async (username : String) (configured : Bool)
    (keyPresent : Bool) (events : List ReadEv) (llm : String → LLMRes) : RecvRes :=
  recvGo username keyPresent llm true configured events

/-- Result of the `asyncio.wait_for(asyncio.open_connection(...))` call in
`client_connection_loop`. -/
inductive ConnEv where
  | okConn
  | refused
  | timedOut
  | cancelledConn
  | connErr (e : String)
deriving DecidableEq, Repr

/-- What happens while `client_connection_loop` awaits the receive task:
the receive task finishes (normally — it swallows its own cancellation),
or the connection task itself is cancelled at that suspension point. -/
inductive AwaitEv where
  | recvDone
  | cancelledHere
deriving DecidableEq, Repr

/-- Trace of one `client_connection_loop` run. -/
structure CLoopRes where
  statuses : List String
  /-- `_perform_cleanup_resources` ran (the `finally` block) -/
  cleanupRan : Bool
  /-- the session reached `Connected` and the lock was released there -/
  reachedConnected : Bool
  outcome : Outcome
deriving DecidableEq, Repr

/-- Model of `ChatClientGUI.client_connection_loop`: open the connection under the
bounded timeout; `ConnectionRefusedError`, `TimeoutError` and generic
errors each set a distinct status and fall through to cleanup;
`CancelledError` sets its status and is re-raised after the `finally`
cleanup; on success the state flags flip to connected, the lock is
released, the receive task is started and awaited.  The `finally` block
(`_perform_cleanup_resources`) runs on every path. -/
def client_connection_loop (conn : ConnEv) (post : AwaitEv) : CLoopRes :=
  match conn with
  | .okConn =>
    match post with
    | .recvDone => ⟨["Connecting...", "Connected"], true, true, .normal⟩
    | .cancelledHere =>
      ⟨["Connecting...", "Connected", "Disconnecting (Loop Cancelled)..."], true, true, .cancelled⟩
  | .refused => ⟨["Connecting...", "Connection refused. Server offline?"], true, false, .normal⟩
  | .timedOut => ⟨["Connecting...", "Connection timed out."], true, false, .normal⟩
  | .cancelledConn =>
    ⟨["Connecting...", "Disconnecting (Loop Cancelled)..."], true, false, .cancelled⟩
  | .connErr e => ⟨["Connecting...", "Connection error: " ++ e], true, false, .normal⟩

-- Shared helper lemmas about `broadcast` and `finallyBlock`

theorem broadcast_deliveries (message : String) (sender : Option Nat)
    (reg : Registry) (net : Nat → WriteOutcome) :
    (broadcast message sender reg net).2.deliveries =
      ((dkeys reg).filter (fun t => some t ≠ sender ∧ net t = .ok)).map
        (fun t => (t, message ++ "\n")) :=
  broadcastGo_deliveries (message ++ "\n") sender net (dkeys reg) reg

theorem broadcast_removed (message : String) (sender : Option Nat)
    (reg : Registry) (net : Nat → WriteOutcome) :
    (broadcast message sender reg net).2.removed =
      (dkeys reg).filter (fun t => some t ≠ sender ∧ net t = .transportErr) :=
  broadcastGo_removed (message ++ "\n") sender net (dkeys reg) reg

theorem broadcast_reg_filter (message : String) (sender : Option Nat)
    (reg : Registry) (net : Nat → WriteOutcome) :
    (broadcast message sender reg net).1 =
      reg.filter (fun p => ¬ (some p.1 ≠ sender ∧ net p.1 = .transportErr)) := by
  show (broadcastGo (message ++ "\n") sender net (dkeys reg) reg).1 = _
  rw [broadcastGo_reg]
  apply List.filter_congr
  intro p hp
  have hmem : p.1 ∈ dkeys reg := List.mem_map.mpr ⟨p, hp, rfl⟩
  simp only [decide_eq_decide]
  constructor
  · rintro h ⟨hps, hpt⟩
    exact h ⟨hmem, hps, hpt⟩
  · rintro h ⟨_, hps, hpt⟩
    exact h ⟨hps, hpt⟩

theorem broadcast_not_mem (message : String) (sender : Option Nat)
    (reg : Registry) (net : Nat → WriteOutcome) {t : Nat}
    (hs : some t ≠ sender) (hf : net t = .transportErr) :
    t ∉ dkeys (broadcast message sender reg net).1 := by
  rw [broadcast_reg_filter]
  intro hc
  rcases List.mem_map.mp hc with ⟨p, hp, rfl⟩
  have := List.of_mem_filter hp
  simp only [decide_eq_true_eq] at this
  exact this ⟨hs, hf⟩

theorem finallyBlock_eq_none {w : Nat} {reg : Registry} (net : Nat → WriteOutcome)
    (h : dlookup w reg = none) :
    finallyBlock w reg net = ⟨reg, "Someone", none⟩ := by
  simp [finallyBlock, h]

theorem finallyBlock_not_mem {w : Nat} {reg : Registry} (net : Nat → WriteOutcome)
    (h : w ∉ dkeys reg) :
    finallyBlock w reg net = ⟨reg, "Someone", none⟩ :=
  finallyBlock_eq_none net (dlookup_eq_none_of_not_mem h)

theorem finallyBlock_eq_someone {w : Nat} {reg : Registry} (net : Nat → WriteOutcome)
    {info : ClientInfo} (h : dlookup w reg = some info)
    (he : info.username = "Someone") :
    finallyBlock w reg net = ⟨derase w reg, "Someone", none⟩ := by
  simp [finallyBlock, h, he]

theorem finallyBlock_eq_departs {w : Nat} {reg : Registry} (net : Nat → WriteOutcome)
    {info : ClientInfo} (h : dlookup w reg = some info)
    (hne : info.username ≠ "Someone") :
    finallyBlock w reg net =
      ⟨(broadcast (departureNotice info.username) none (derase w reg) net).1,
        info.username,
        some (broadcast (departureNotice info.username) none (derase w reg) net).2⟩ := by
  simp [finallyBlock, h, hne, departureNotice]

theorem finallyBlock_call_none_iff (w : Nat) (reg : Registry) (net : Nat → WriteOutcome) :
    (finallyBlock w reg net).call = none ↔ (finallyBlock w reg net).departing = "Someone" := by
  cases hl : dlookup w reg with
  | none => rw [finallyBlock_eq_none net hl]; simp
  | some info =>
    by_cases hi : info.username = "Someone"
    · rw [finallyBlock_eq_someone net hl hi]; simp
    · rw [finallyBlock_eq_departs net hl hi]
      simp [hi]

theorem finallyBlock_call_props (w : Nat) (reg : Registry) (net : Nat → WriteOutcome) :
    ∀ b, (finallyBlock w reg net).call = some b →
      b.sender = none ∧ b.msg = departureNotice (finallyBlock w reg net).departing := by
  intro b hb
  cases hl : dlookup w reg with
  | none => rw [finallyBlock_eq_none net hl] at hb; cases hb
  | some info =>
    by_cases hi : info.username = "Someone"
    · rw [finallyBlock_eq_someone net hl hi] at hb; cases hb
    · rw [finallyBlock_eq_departs net hl hi] at hb ⊢
      have hbe : (broadcast (departureNotice info.username) none (derase w reg) net).2 = b :=
        Option.some.inj hb
      rw [← hbe]
      exact ⟨rfl, rfl⟩

/-- C1: with a display name already registered, a second connection
sending that exact name gets the welcome prompt and then exactly the
rejection text, is closed, is never inserted (`registered = false`),
triggers no broadcast at all (in particular no join notice), and leaves
the registry exactly as it was — only the first registrant of the name
remains.  Registration is atomic under the lock, so this holds in every
reachable state where the name is present, regardless of which handler
completed first. -/
theorem duplicate_name_rejected (reg0 : Registry) (w : Nat) (peerHost : String)
    (peerPort : Nat) (s : String) (rest : List ReadEv) (net : Nat → Nat → WriteOutcome)
    (hfresh : w ∉ dkeys reg0) (hne : pystrip s ≠ "")
    (htaken : nameTaken (pystrip s) reg0 = true) :
    handle_client reg0 w peerHost peerPort (.line s :: rest) net =
      ⟨reg0, [welcomePrompt, rejectionText (pystrip s)], [], false, "Someone", true,
        rest, .normal⟩ := by
  have hfin : finallyBlock w reg0 (net 0) = ⟨reg0, "Someone", none⟩ :=
    finallyBlock_not_mem (net 0) hfresh
  simp [handle_client, hne, htaken, hfin]

/-- Witness for C1 at a concrete state: `"Bob"` is registered, a second
connection sends `"Bob"` and is rejected. -/
theorem duplicate_name_rejected_witness :
    handle_client [(0, ⟨"h", 9, "Bob"⟩)] 1 "ph" 5 [ReadEv.line "Bob"] (fun _ _ => .ok) =
      ⟨[(0, ⟨"h", 9, "Bob"⟩)], [welcomePrompt, rejectionText (pystrip "Bob")], [], false,
        "Someone", true, [], .normal⟩ :=
  duplicate_name_rejected [(0, ⟨"h", 9, "Bob"⟩)] 1 "ph" 5 "Bob" [] (fun _ _ => .ok)
    (by decide) (by decide) (by decide)

/-- C6: if the stream reports EOF before any name line, the handler
returns directly: nothing is ever inserted, no broadcast of any kind is
made on its behalf, the registry is untouched and the writer is closed. -/
theorem eof_before_name (reg0 : Registry) (w : Nat) (peerHost : String)
    (peerPort : Nat) (rest : List ReadEv) (net : Nat → Nat → WriteOutcome)
    (hfresh : w ∉ dkeys reg0) :
    handle_client reg0 w peerHost peerPort (.eofEv :: rest) net =
      ⟨reg0, [welcomePrompt], [], false, "Someone", true, rest, .normal⟩ := by
  have hfin : finallyBlock w reg0 (net 0) = ⟨reg0, "Someone", none⟩ :=
    finallyBlock_not_mem (net 0) hfresh
  simp [handle_client, hfin]

/-- Witness for C6: a fresh connection that closes immediately. -/
theorem eof_before_name_witness :
    handle_client [(0, ⟨"h", 9, "Ann"⟩)] 1 "ph" 5 [ReadEv.eofEv] (fun _ _ => .ok) =
      ⟨[(0, ⟨"h", 9, "Ann"⟩)], [welcomePrompt], [], false, "Someone", true, [], .normal⟩ :=
  eof_before_name [(0, ⟨"h", 9, "Ann"⟩)] 1 "ph" 5 [] (fun _ _ => .ok) (by decide)

/-- C2: a transport error on one broadcast target never escapes
`broadcast` (the function is total and the error is handled inside the
`except` clause); the deliveries are exactly `message + "\n"` to every
non-sender snapshot target whose write succeeds, in snapshot order; the
final registry keeps exactly the entries whose write did not raise a
transport error, so every failing target has been removed. -/
theorem broadcast_failure_isolated (message : String) (sender : Option Nat)
    (reg : Registry) (net : Nat → WriteOutcome) :
    (broadcast message sender reg net).2.deliveries =
      ((dkeys reg).filter (fun t => some t ≠ sender ∧ net t = .ok)).map
        (fun t => (t, message ++ "\n")) ∧
    (broadcast message sender reg net).1 =
      reg.filter (fun p => ¬ (some p.1 ≠ sender ∧ net p.1 = .transportErr)) ∧
    (∀ t, some t ≠ sender → net t = .transportErr →
      t ∉ dkeys (broadcast message sender reg net).1) :=
  ⟨broadcast_deliveries message sender reg net,
   broadcast_reg_filter message sender reg net,
   fun _ hs hf => broadcast_not_mem message sender reg net hs hf⟩

/-- Witness for C2: three registered targets, the write to target 2
fails; 2 is gone from the registry afterwards while 1 and 3 keep their
entries and 3 still receives the message. -/
theorem broadcast_failure_isolated_witness :
    2 ∉ dkeys (broadcast "hello" (some 1)
      [(1, ⟨"h", 1, "A"⟩), (2, ⟨"h", 2, "B"⟩), (3, ⟨"h", 3, "C"⟩)]
      (fun t => if t = 2 then .transportErr else .ok)).1 :=
  (broadcast_failure_isolated "hello" (some 1)
      [(1, ⟨"h", 1, "A"⟩), (2, ⟨"h", 2, "B"⟩), (3, ⟨"h", 3, "C"⟩)]
      (fun t => if t = 2 then .transportErr else .ok)).2.2 2 (by decide) (by decide)

/-- C10: a client whose write fails during someone else's broadcast is
removed there and then; when its own handler later runs its `finally`
block, the membership test fails, `departing_username` stays `"Someone"`
and no departure broadcast is made — the client leaves silently. -/
theorem silent_removal_no_departure (message : String) (sender : Option Nat)
    (reg : Registry) (net net2 : Nat → WriteOutcome) (B : Nat)
    (hmem : B ∈ dkeys reg) (hs : some B ≠ sender) (hf : net B = .transportErr) :
    B ∈ (broadcast message sender reg net).2.removed ∧
    B ∉ dkeys (broadcast message sender reg net).1 ∧
    finallyBlock B (broadcast message sender reg net).1 net2 =
      ⟨(broadcast message sender reg net).1, "Someone", none⟩ := by
  refine ⟨?_, broadcast_not_mem message sender reg net hs hf,
    finallyBlock_not_mem net2 (broadcast_not_mem message sender reg net hs hf)⟩
  rw [broadcast_removed]
  exact List.mem_filter.mpr ⟨hmem, by simp [hs, hf]⟩

/-- Witness for C10: writer 2 fails during writer 1's broadcast and its
own cleanup then finds the registry entry already gone. -/
theorem silent_removal_no_departure_witness :
    2 ∈ (broadcast "hi" (some 1) [(1, ⟨"h", 1, "A"⟩), (2, ⟨"h", 2, "B"⟩)]
      (fun t => if t = 2 then .transportErr else .ok)).2.removed ∧
    finallyBlock 2 (broadcast "hi" (some 1) [(1, ⟨"h", 1, "A"⟩), (2, ⟨"h", 2, "B"⟩)]
      (fun t => if t = 2 then .transportErr else .ok)).1 (fun _ => .ok) =
      ⟨(broadcast "hi" (some 1) [(1, ⟨"h", 1, "A"⟩), (2, ⟨"h", 2, "B"⟩)]
        (fun t => if t = 2 then .transportErr else .ok)).1, "Someone", none⟩ := by
  have h := silent_removal_no_departure "hi" (some 1)
    [(1, ⟨"h", 1, "A"⟩), (2, ⟨"h", 2, "B"⟩)]
    (fun t => if t = 2 then .transportErr else .ok) (fun _ => .ok) 2
    (by decide) (by decide) (by decide)
  exact ⟨h.1, h.2.2⟩

-- Helpers for the cleanup characterization

theorem cleanup_departure_countP (pre : List (BSite × BCall))
    (hpre : ∀ c ∈ pre, ¬ c.1 = BSite.departure) (w : Nat) (reg : Registry)
    (net : Nat → WriteOutcome) :
    List.countP (fun x => decide (x.1 = BSite.departure))
        (pre ++ ((finallyBlock w reg net).call.map (fun b => (BSite.departure, b))).toList) =
      (if (finallyBlock w reg net).departing = "Someone" then 0 else 1) := by
  rw [List.countP_append]
  have h1 : List.countP (fun x => decide (x.1 = BSite.departure)) pre = 0 :=
    List.countP_eq_zero.mpr (by intro c hc; simpa using hpre c hc)
  rw [h1, Nat.zero_add]
  rcases hcall : (finallyBlock w reg net).call with _ | b
  · rw [if_pos ((finallyBlock_call_none_iff w reg net).mp hcall)]
    simp
  · have hne : ¬ (finallyBlock w reg net).departing = "Someone" := by
      intro h
      rw [← finallyBlock_call_none_iff w reg net] at h
      rw [h] at hcall
      cases hcall
    rw [if_neg hne]
    simp

theorem cleanup_departure_mem (pre : List (BSite × BCall))
    (hpre : ∀ c ∈ pre, ¬ c.1 = BSite.departure) (w : Nat) (reg : Registry)
    (net : Nat → WriteOutcome) :
    ∀ c ∈ pre ++ ((finallyBlock w reg net).call.map (fun b => (BSite.departure, b))).toList,
      c.1 = BSite.departure →
      c.2.sender = none ∧ c.2.msg = departureNotice (finallyBlock w reg net).departing := by
  intro c hc hdep
  rcases List.mem_append.mp hc with h | h
  · exact absurd hdep (hpre c h)
  · rcases hcall : (finallyBlock w reg net).call with _ | b
    · rw [hcall] at h; cases h
    · rw [hcall] at h
      simp only [Option.map_some', Option.toList_some, List.mem_singleton] at h
      rw [h]
      exact finallyBlock_call_props w reg net b hcall

/-- C4 (counterexample): the claim says the departure notice is broadcast
*iff* a name had been registered for the connection.  A client that
registers under the literal name `"Someone"` (the sentinel value of
`departing_username`) and then disconnects is registered
(`registered = true`) yet gets no departure broadcast: the `finally`
block conflates its name with the unset sentinel. -/
theorem departure_iff_registered_cex :
    (handle_client [] 1 "host" 5 [ReadEv.line "Someone"] (fun _ _ => .ok)).registered
        = true ∧
    List.countP (fun c => decide (c.1 = BSite.departure))
        (handle_client [] 1 "host" 5 [ReadEv.line "Someone"] (fun _ _ => .ok)).calls = 0 := by
  decide

/-- The three cleanup facts for any handler result whose trace ends with
the `finally` block: writer closed, departure-broadcast count matches the
`departing` sentinel test, and any departure call excludes no one and
carries the exact notice. -/
theorem cleanup_conj (ow : List String) (pre : List (BSite × BCall))
    (hpre : ∀ c ∈ pre, ¬ c.1 = BSite.departure) (w : Nat) (reg : Registry)
    (net : Nat → WriteOutcome) (rb : Bool) (rem : List ReadEv) (oc : Outcome) :
    (HandlerRes.mk (finallyBlock w reg net).reg ow
        (pre ++ ((finallyBlock w reg net).call.map (fun b => (BSite.departure, b))).toList)
        rb (finallyBlock w reg net).departing true rem oc).closedOwn = true ∧
    (List.countP (fun c => decide (c.1 = BSite.departure))
        (HandlerRes.mk (finallyBlock w reg net).reg ow
          (pre ++ ((finallyBlock w reg net).call.map (fun b => (BSite.departure, b))).toList)
          rb (finallyBlock w reg net).departing true rem oc).calls =
      if (HandlerRes.mk (finallyBlock w reg net).reg ow
          (pre ++ ((finallyBlock w reg net).call.map (fun b => (BSite.departure, b))).toList)
          rb (finallyBlock w reg net).departing true rem oc).departing = "Someone"
      then 0 else 1) ∧
    (∀ c ∈ (HandlerRes.mk (finallyBlock w reg net).reg ow
        (pre ++ ((finallyBlock w reg net).call.map (fun b => (BSite.departure, b))).toList)
        rb (finallyBlock w reg net).departing true rem oc).calls,
      c.1 = BSite.departure →
      c.2.sender = none ∧
      c.2.msg = departureNotice (HandlerRes.mk (finallyBlock w reg net).reg ow
        (pre ++ ((finallyBlock w reg net).call.map (fun b => (BSite.departure, b))).toList)
        rb (finallyBlock w reg net).departing true rem oc).departing) :=
  ⟨rfl, cleanup_departure_countP pre hpre w reg net,
    cleanup_departure_mem pre hpre w reg net⟩

/-- Specialisation of `cleanup_departure_countP` to the
registered-connection trace shape: one join call, then chat calls, then
the cleanup. -/
theorem cleanup_countP_reg (bj : BCall) (cs : List BCall) (w : Nat)
    (reg : Registry) (net : Nat → WriteOutcome) :
    List.countP (fun c => decide (c.1 = BSite.departure))
        ((BSite.join, bj) :: cs.map (fun x => (BSite.chat, x)) ++
          ((finallyBlock w reg net).call.map (fun x => (BSite.departure, x))).toList) =
      (if (finallyBlock w reg net).departing = "Someone" then 0 else 1) := by
  have hpre : ∀ c ∈ (BSite.join, bj) :: cs.map (fun x => (BSite.chat, x)),
      ¬ c.1 = BSite.departure := by
    intro c hc
    rcases List.mem_cons.mp hc with h | h
    · rw [h]
      simp
    · rcases List.mem_map.mp h with ⟨x, _, rfl⟩
      simp
  exact cleanup_departure_countP ((BSite.join, bj) :: cs.map (fun x => (BSite.chat, x)))
    hpre w reg net

/-- Specialisation of `cleanup_departure_mem` to the same shape. -/
theorem cleanup_mem_reg (bj : BCall) (cs : List BCall) (w : Nat)
    (reg : Registry) (net : Nat → WriteOutcome) :
    ∀ c ∈ (BSite.join, bj) :: cs.map (fun x => (BSite.chat, x)) ++
        ((finallyBlock w reg net).call.map (fun x => (BSite.departure, x))).toList,
      c.1 = BSite.departure →
      c.2.sender = none ∧ c.2.msg = departureNotice (finallyBlock w reg net).departing := by
  have hpre : ∀ c ∈ (BSite.join, bj) :: cs.map (fun x => (BSite.chat, x)),
      ¬ c.1 = BSite.departure := by
    intro c hc
    rcases List.mem_cons.mp hc with h | h
    · rw [h]
      simp
    · rcases List.mem_map.mp h with ⟨x, _, rfl⟩
      simp
  exact cleanup_departure_mem ((BSite.join, bj) :: cs.map (fun x => (BSite.chat, x)))
    hpre w reg net

/-- Equation for `handle_client` on a name line whose (possibly defaulted) username is
already taken: the rejection record. -/
theorem handle_client_line_taken (reg0 : Registry) (w : Nat) (peerHost : String)
    (peerPort : Nat) (s : String) (rest : List ReadEv) (net : Nat → Nat → WriteOutcome)
    (ht : nameTaken (if pystrip s = "" then "User_" ++ toString peerPort else pystrip s)
      reg0 = true) :
    handle_client reg0 w peerHost peerPort (.line s :: rest) net =
      ⟨(finallyBlock w reg0 (net 0)).reg,
        (if pystrip s = "" then
          [welcomePrompt, assignedNotice ("User_" ++ toString peerPort)]
         else [welcomePrompt]) ++
          [rejectionText (if pystrip s = "" then "User_" ++ toString peerPort
            else pystrip s)],
        ((finallyBlock w reg0 (net 0)).call.map (fun b => (BSite.departure, b))).toList,
        false, (finallyBlock w reg0 (net 0)).departing, true, rest, .normal⟩ := by
  by_cases he : pystrip s = "" <;> simp_all [handle_client]

/-- Equation for `handle_client` on a name line whose (possibly defaulted) username is
free: registration, join broadcast, chat loop, cleanup. -/
theorem handle_client_line_free (reg0 : Registry) (w : Nat) (peerHost : String)
    (peerPort : Nat) (s : String) (rest : List ReadEv) (net : Nat → Nat → WriteOutcome)
    (hf : nameTaken (if pystrip s = "" then "User_" ++ toString peerPort else pystrip s)
      reg0 = false) :
    handle_client reg0 w peerHost peerPort (.line s :: rest) net =
      (let u := if pystrip s = "" then "User_" ++ toString peerPort else pystrip s
       let b := broadcast (joinNotice u) (some w) (dinsert w ⟨peerHost, peerPort, u⟩ reg0)
         (net 0)
       let l := chatLoop w u net rest b.1 1
       let c := finallyBlock w l.reg (net l.nextCall)
       ⟨c.reg,
        (if pystrip s = "" then [welcomePrompt, assignedNotice u] else [welcomePrompt]) ++
          [readyAck],
        (BSite.join, b.2) :: l.calls.map (fun x => (BSite.chat, x)) ++
          (c.call.map (fun x => (BSite.departure, x))).toList,
        true, c.departing, true, l.remaining,
        if l.exitKind = .cancelExit then .cancelled else .normal⟩) := by
  by_cases he : pystrip s = "" <;> simp_all [handle_client]

/-- C4 (amended): the terminal cleanup runs exactly once on every exit
path — the writer is always closed, and the handler emits exactly one
departure broadcast when the `finally` block finds the connection still
registered with a name other than the sentinel `"Someone"`, and none
otherwise (so a connection never registered, already removed by a failed
broadcast write, or registered as the literal `"Someone"`, leaves
silently).  The departure broadcast excludes no one (`sender = none`) and
carries the exact notice text. -/
theorem cleanup_exactly_once (reg0 : Registry) (w : Nat) (peerHost : String)
    (peerPort : Nat) (events : List ReadEv) (net : Nat → Nat → WriteOutcome) :
    (handle_client reg0 w peerHost peerPort events net).closedOwn = true ∧
    (List.countP (fun c => decide (c.1 = BSite.departure))
        (handle_client reg0 w peerHost peerPort events net).calls =
      if (handle_client reg0 w peerHost peerPort events net).departing = "Someone"
      then 0 else 1) ∧
    (∀ c ∈ (handle_client reg0 w peerHost peerPort events net).calls,
      c.1 = BSite.departure →
      c.2.sender = none ∧
      c.2.msg = departureNotice
        (handle_client reg0 w peerHost peerPort events net).departing) := by
  have hnil : ∀ c ∈ ([] : List (BSite × BCall)), ¬ c.1 = BSite.departure := by
    intro c hc
    cases hc
  cases events with
  | nil => exact cleanup_conj [welcomePrompt] [] hnil w reg0 (net 0) false [] .normal
  | cons ev rest =>
    cases ev with
    | eofEv => exact cleanup_conj [welcomePrompt] [] hnil w reg0 (net 0) false rest .normal
    | reset => exact cleanup_conj [welcomePrompt] [] hnil w reg0 (net 0) false rest .normal
    | cancel =>
      exact cleanup_conj [welcomePrompt] [] hnil w reg0 (net 0) false rest .cancelled
    | line s =>
      rcases Bool.eq_false_or_eq_true
          (nameTaken (if pystrip s = "" then "User_" ++ toString peerPort else pystrip s)
            reg0) with ht | ht
      · rw [handle_client_line_taken reg0 w peerHost peerPort s rest net ht]
        exact cleanup_conj _ [] hnil w reg0 (net 0) false rest .normal
      · rw [handle_client_line_free reg0 w peerHost peerPort s rest net ht]
        dsimp only
        exact ⟨rfl, cleanup_countP_reg _ _ _ _ _, cleanup_mem_reg _ _ _ _ _⟩

/-- Witness for C4 at a concrete run: Alice joins while Bob is connected
and leaves on EOF; exactly one departure broadcast is made. -/
theorem cleanup_exactly_once_witness :
    List.countP (fun c => decide (c.1 = BSite.departure))
        (handle_client [(2, ⟨"h", 2, "Bob"⟩)] 1 "h" 1
          [ReadEv.line "Alice", ReadEv.eofEv] (fun _ _ => .ok)).calls =
      if (handle_client [(2, ⟨"h", 2, "Bob"⟩)] 1 "h" 1
          [ReadEv.line "Alice", ReadEv.eofEv] (fun _ _ => .ok)).departing = "Someone"
      then 0 else 1 :=
  (cleanup_exactly_once [(2, ⟨"h", 2, "Bob"⟩)] 1 "h" 1
    [ReadEv.line "Alice", ReadEv.eofEv] (fun _ _ => .ok)).2.1

/-- C3: dispatch of the Active-state receive loop.  EOF exits to the
closing path; a line whose stripped text lowercases to `quit` exits to
the closing path leaving the remaining events unread; a blank line is
skipped and the loop continues unchanged; any other line is broadcast as
`[name]: <line>` with the sender excluded (the sender receives no
delivery) and the loop continues. -/
theorem active_loop_dispatch (w : Nat) (u : String) (net : Nat → Nat → WriteOutcome)
    (k : Nat) (reg : Registry) (rest : List ReadEv) (s : String) :
    (chatLoop w u net (.eofEv :: rest) reg k = ⟨reg, [], .eofExit, rest, k⟩) ∧
    (pylower (pystrip s) = "quit" →
      chatLoop w u net (.line s :: rest) reg k = ⟨reg, [], .quitExit, rest, k⟩) ∧
    (pystrip s = "" →
      chatLoop w u net (.line s :: rest) reg k = chatLoop w u net rest reg k) ∧
    (pylower (pystrip s) ≠ "quit" → pystrip s ≠ "" →
      (chatLoop w u net (.line s :: rest) reg k =
        (let b := broadcast ("[" ++ u ++ "]: " ++ pystrip s) (some w) reg (net k)
         let r := chatLoop w u net rest b.1 (k + 1)
         ⟨r.reg, b.2 :: r.calls, r.exitKind, r.remaining, r.nextCall⟩) ∧
      ∀ d ∈ (broadcast ("[" ++ u ++ "]: " ++ pystrip s) (some w) reg
          (net k)).2.deliveries, d.1 ≠ w)) := by
  refine ⟨rfl, ?_, ?_, ?_⟩
  · intro hq
    simp [chatLoop, hq]
  · intro hb
    have hq0 : pylower "" ≠ "quit" := by decide
    simp [chatLoop, hb, hq0]
  · intro hq hb
    refine ⟨by simp [chatLoop, hq, hb], ?_⟩
    intro d hd
    rw [broadcast_deliveries] at hd
    rcases List.mem_map.mp hd with ⟨t, ht, rfl⟩
    have := List.of_mem_filter ht
    simp only [decide_eq_true_eq] at this
    intro hc
    exact this.1 (congrArg some (hc : t = w))

/-- Witness for C3: a `"QuIt "` line exits without reading the event
behind it. -/
theorem active_loop_dispatch_witness :
    chatLoop 1 "A" (fun _ _ => .ok) [ReadEv.line "QuIt ", ReadEv.line "x"]
        ([] : Registry) 0 =
      ⟨[], [], .quitExit, [ReadEv.line "x"], 0⟩ :=
  (active_loop_dispatch 1 "A" (fun _ _ => .ok) 0 [] [ReadEv.line "x"] "QuIt ").2.1
    (by decide)

/-- C5: in every state reachable by the code's lock-guarded registry
mutations (the check-and-insert of registration, the guarded delete in
the handler's `finally` block, and the guarded delete in `broadcast`'s
error branch — the only statements that touch `connected_clients`, each
under `clients_lock`), display names are pairwise distinct; and as long
as each writer is registered by at most one operation (each connection
has exactly one handler, which registers at most once), each writer is
inserted at most once and removed at most once over the whole run. -/
theorem registry_invariants (ops : List RegOp) :
    (dnames (runOps [] ops).1).Nodup ∧
    (∀ w, regCount w ops ≤ 1 →
      insCount w (runOps [] ops).2 ≤ 1 ∧ rmCount w (runOps [] ops).2 ≤ 1) := by
  refine ⟨runOps_names_nodup ops [] (by simp [dnames]), ?_⟩
  intro w hw
  refine ⟨le_trans (insCount_runOps_le ops w []) hw, ?_⟩
  refine le_trans (rmCount_runOps_le ops w []) ?_
  simpa [memb, dkeys] using hw

/-- Witness for C5: one registration and one removal of writer 1. -/
theorem registry_invariants_witness :
    insCount 1 (runOps [] [RegOp.reg 1 ⟨"h", 1, "A"⟩, RegOp.rmFin 1]).2 ≤ 1 ∧
    rmCount 1 (runOps [] [RegOp.reg 1 ⟨"h", 1, "A"⟩, RegOp.rmFin 1]).2 ≤ 1 :=
  (registry_invariants [RegOp.reg 1 ⟨"h", 1, "A"⟩, RegOp.rmFin 1]).2 1 (by decide)

-- Distinctness of the validation error messages

theorem pystarts_errInvalidPort (p : String) :
    pystarts (errInvalidPort p) "Invalid" = true := by
  rw [pystarts, errInvalidPort, String.data_append, String.data_append,
    List.append_assoc]
  rfl

theorem errInvalidPort_distinct (p : String) :
    errInvalidPort p ≠ errNoUsername ∧ errInvalidPort p ≠ errNoHost := by
  constructor
  · intro h
    have h1 : pystarts (errInvalidPort p) "Invalid" = true := pystarts_errInvalidPort p
    rw [h] at h1
    exact absurd h1 (by decide)
  · intro h
    have h1 : pystarts (errInvalidPort p) "Invalid" = true := pystarts_errInvalidPort p
    rw [h] at h1
    exact absurd h1 (by decide)

/-- C7 (amended): while the gate (`connect_lock`) is held — which it is
for the whole of a connect attempt — any further click is ignored, so a
second Connect during an in-flight connect is a no-op; with the gate free
and the session disconnected, each invalid input (empty display name,
empty host, non-integer or out-of-range port) yields its own distinct
user-facing error and leaves the connection flags, the gate and the loop
marker unchanged, though `self.username` has already been overwritten
from the entry field. -/
theorem connect_validation (st : ClientState) (e : Entries) :
    (st.lock_held = true → connect_disconnect st e = (st, [.ignoredClick])) ∧
    (st.lock_held = false → st.is_connected = false → st.is_connecting = false →
      ((pystrip e.name = "" →
        connect_disconnect st e =
          ({ st with username := pystrip e.name },
            [.displayErr errNoUsername, .statusMsg "Username required"])) ∧
      (pystrip e.name ≠ "" → pystrip e.host = "" →
        connect_disconnect st e =
          ({ st with username := pystrip e.name },
            [.displayErr errNoHost, .statusMsg "Host required"])) ∧
      (pystrip e.name ≠ "" → pystrip e.host ≠ "" → pyInt (pystrip e.port) = none →
        connect_disconnect st e =
          ({ st with username := pystrip e.name },
            [.displayErr (errInvalidPort (pystrip e.port)), .statusMsg "Invalid Port"])) ∧
      (∀ p : Int, pystrip e.name ≠ "" → pystrip e.host ≠ "" →
        pyInt (pystrip e.port) = some p → ¬ (0 < p ∧ p < 65536) →
        connect_disconnect st e =
          ({ st with username := pystrip e.name },
            [.displayErr (errInvalidPort (pystrip e.port)), .statusMsg "Invalid Port"])))) ∧
    (∀ p, errInvalidPort p ≠ errNoUsername ∧ errInvalidPort p ≠ errNoHost) ∧
    errNoUsername ≠ errNoHost := by
  refine ⟨?_, ?_, errInvalidPort_distinct, by decide⟩
  · intro hl
    simp [connect_disconnect, hl]
  · intro hl hc hg
    refine ⟨?_, ?_, ?_, ?_⟩
    · intro hn
      simp [connect_disconnect, hl, hc, hg, hn]
    · intro hn hh
      simp [connect_disconnect, hl, hc, hg, hn, hh]
    · intro hn hh hp
      simp [connect_disconnect, hl, hc, hg, hn, hh, hp]
    · intro p hn hh hp hrange
      simp [connect_disconnect, hl, hc, hg, hn, hh, hp, hrange]

/-- Witness for C7: an empty display name is rejected with the exact
error and the flags stay down. -/
theorem connect_validation_witness :
    connect_disconnect ⟨false, false, false, "Old", false⟩ ⟨" ", "h", "80"⟩ =
      (⟨false, false, false, "", false⟩,
        [.displayErr errNoUsername, .statusMsg "Username required"]) :=
  ((connect_validation ⟨false, false, false, "Old", false⟩ ⟨" ", "h", "80"⟩).2.1
    rfl rfl rfl).1 (by decide)

/-- C7 (counterexample): two divergences from the claim as stated.
First, a rejected connect request does mutate session state:
`self.username` is overwritten from the entry before validation (here
`"Alice"` becomes `"Bob"` although the request fails on the empty host).
Second, a Connect issued while a disconnect is still in flight (the stop
was scheduled on the still-running loop, the gate already released) is
not rejected: it starts a new connecting sequence. -/
theorem connect_validation_cex :
    (connect_disconnect ⟨false, false, false, "Alice", false⟩ ⟨"Bob", "", "123"⟩).1.username
        = "Bob" ∧
    (connect_disconnect (connect_disconnect ⟨true, false, false, "A", true⟩
        ⟨"A", "h", "8888"⟩).1 ⟨"A", "h", "8888"⟩).2 =
      [ClientEv.statusMsg "Connecting to h...", ClientEv.startThread "h" 8888] := by
  decide

/-- Shared: the handler closes its own writer on every exit path. -/
theorem handle_client_closed (reg0 : Registry) (w : Nat) (peerHost : String)
    (peerPort : Nat) (events : List ReadEv) (net : Nat → Nat → WriteOutcome) :
    (handle_client reg0 w peerHost peerPort events net).closedOwn = true := by
  cases events with
  | nil => rfl
  | cons ev rest =>
    cases ev with
    | eofEv => rfl
    | reset => rfl
    | cancel => rfl
    | line s =>
      rcases Bool.eq_false_or_eq_true
          (nameTaken (if pystrip s = "" then "User_" ++ toString peerPort else pystrip s)
            reg0) with ht | ht
      · rw [handle_client_line_taken reg0 w peerHost peerPort s rest net ht]
      · rw [handle_client_line_free reg0 w peerHost peerPort s rest net ht]

/-- C8 (counterexample): the claim says the client's receive operation
re-raises cancellation to its caller after cleanup; in the code
`handle_received_data_async` catches `asyncio.CancelledError` and merely
logs it, so the coroutine completes normally — the cancellation is not
re-raised. -/
theorem cancellation_reraise_cex :
    (handle_received_data_async "A" false false [ReadEv.cancel]
      (fun _ => .ok "x")).outcome ≠ Outcome.cancelled := by
  decide

/-- C8 (amended): the server handler re-raises a cancellation delivered
at its name read or inside its receive loop, and its `finally` cleanup
(including closing the writer) runs on every path; the client connection
loop re-raises a cancellation delivered during the connect attempt or
while awaiting the receive task, after its `finally` cleanup; the
client's receive operation, by contrast, swallows its cancellation and
completes normally. -/
theorem cancellation_reraise :
    (∀ (reg0 : Registry) (w : Nat) (peerHost : String) (peerPort : Nat)
        (rest : List ReadEv) (net : Nat → Nat → WriteOutcome),
      (handle_client reg0 w peerHost peerPort (.cancel :: rest) net).outcome =
        .cancelled) ∧
    (∀ (w : Nat) (u : String) (net : Nat → Nat → WriteOutcome) (rest : List ReadEv)
        (reg : Registry) (k : Nat),
      (chatLoop w u net (.cancel :: rest) reg k).exitKind = .cancelExit) ∧
    (∀ (reg0 : Registry) (w : Nat) (peerHost : String) (peerPort : Nat)
        (events : List ReadEv) (net : Nat → Nat → WriteOutcome),
      (handle_client reg0 w peerHost peerPort events net).closedOwn = true) ∧
    (∀ post : AwaitEv, (client_connection_loop .cancelledConn post).outcome = .cancelled ∧
      (client_connection_loop .cancelledConn post).cleanupRan = true) ∧
    ((client_connection_loop .okConn .cancelledHere).outcome = .cancelled ∧
      (client_connection_loop .okConn .cancelledHere).cleanupRan = true) ∧
    (∀ (uname : String) (conf key : Bool) (rest : List ReadEv)
        (llm : String → LLMRes),
      (handle_received_data_async uname conf key (.cancel :: rest) llm).outcome =
        .normal) :=
  ⟨fun _ _ _ _ _ _ => rfl, fun _ _ _ _ _ _ => rfl, handle_client_closed,
    fun _ => ⟨rfl, rfl⟩, ⟨rfl, rfl⟩, fun _ _ _ _ _ => rfl⟩

/-- The transform failed (any of the three handled exception classes). -/
def llmFailed : LLMRes → Bool
  | .ok _ => false
  | _ => true

/-- The error note each failure handler displays. -/
def llmErrNote : LLMRes → List String
  | .ok _ => []
  | .authErr => [authErrNote]
  | .apiErr e => [apiErrNote e]
  | .exnErr e => [exnErrNote e]

/-- C9: when the transform fails for any reason on a line that actually
goes through it, `translate_message_if_needed` returns the untransformed
line together with a non-empty visible error note, and the receive loop
then surfaces the note followed by the original line — the message is
never dropped. -/
theorem transform_failure_preserves_message (uname : String) (key : Bool)
    (msg : String) (llm : String → LLMRes) (s : String) (rest : List ReadEv)
    (hS : pystarts msg "[Server]" = false)
    (hO : pystarts msg ("[" ++ uname ++ "]") = false)
    (hfail : llmFailed (llm msg) = true)
    (hs : pystrip s = msg) (hne : msg ≠ "") :
    (translate_message_if_needed true key uname msg llm).result = msg ∧
    (translate_message_if_needed true key uname msg llm).displays =
      llmErrNote (llm msg) ∧
    llmErrNote (llm msg) ≠ [] ∧
    (recvGo uname key llm false true (.line s :: rest)).displays =
      llmErrNote (llm msg) ++ msg ::
        (recvGo uname key llm false
          (translate_message_if_needed true key uname msg llm).configured
          rest).displays := by
  cases hllm : llm msg with
  | ok t => rw [hllm] at hfail; cases hfail
  | authErr =>
    refine ⟨?_, ?_, by simp [llmErrNote], ?_⟩ <;>
      simp [translate_message_if_needed, recvGo, hS, hO, hllm, llmErrNote, hs, hne]
  | apiErr e =>
    refine ⟨?_, ?_, by simp [llmErrNote], ?_⟩ <;>
      simp [translate_message_if_needed, recvGo, hS, hO, hllm, llmErrNote, hs, hne]
  | exnErr e =>
    refine ⟨?_, ?_, by simp [llmErrNote], ?_⟩ <;>
      simp [translate_message_if_needed, recvGo, hS, hO, hllm, llmErrNote, hs, hne]

/-- Witness for C9: an API error on `"hola"`; the note and the original
line are both displayed. -/
theorem transform_failure_preserves_message_witness :
    (recvGo "A" true (fun _ => .apiErr "boom") false true
        [ReadEv.line " hola "]).displays =
      llmErrNote ((fun _ : String => LLMRes.apiErr "boom") "hola") ++ "hola" ::
        (recvGo "A" true (fun _ => .apiErr "boom") false
          (translate_message_if_needed true true "A" "hola"
            (fun _ => .apiErr "boom")).configured []).displays :=
  (transform_failure_preserves_message "A" true "hola" (fun _ => .apiErr "boom")
    " hola " [] (by decide) (by decide) (by decide) (by decide) (by decide)).2.2.2

/-- Witness for C8: a cancellation at the server handler's first read
propagates while the cleanup still closes the writer. -/
theorem cancellation_reraise_witness :
    (handle_client [] 1 "h" 1 [ReadEv.cancel] (fun _ _ => .ok)).outcome =
      .cancelled :=
  cancellation_reraise.1 [] 1 "h" 1 [] (fun _ _ => .ok)
